import Mathlib

/-!
Verification development for the ChessHireHub server (interview session and
message lifecycle, persistence and export contract).

The definitions below are a shallow embedding of the code in
`server/storage.ts`, `server/routes.ts`, `server/exportUtils.ts` and the
table layout of `server/db.ts`:

* SQLite rows become Lean structures; the four tables become lists held in a
  `Store` value, kept in rowid (insertion) order.
* Wall-clock timestamps (`new Date()` / ISO-8601 strings) are modelled as
  abstract `Nat` ticks; `Store.clock` records the latest tick drawn, and the
  reachability relation only draws non-decreasing ticks, mirroring a
  monotone wall clock.
* The OpenAI chat-completion call of `getAIResponse` is the only external
  effect in scope; it is abstracted by an `AIOutcome` oracle value passed to
  the route (network error / malformed response = the promise rejecting,
  `response c` = a completion whose `content` field is `c`, possibly null).
* Fallible route handlers return `Except RouteError α` paired with the
  store after the call; handlers that answer an error never write, exactly
  as in the source where every early `return` precedes the first write.
-/

namespace ChessHireHub

/-- Row of the `interview_messages` table (`db.ts`): rowid `id`, owning
`interviewId`, `sender` (the source stores the strings "user"/"ai"),
`content`, and the server-assigned `sentAt` timestamp. -/
structure InterviewMessage where
  id : Nat
  interviewId : Nat
  sender : String
  content : String
  sentAt : Nat
deriving DecidableEq, Repr

/-- Row of the `interviews` table (`db.ts`), column order as in the CREATE
TABLE statement: id, userId, resumeId, targetRole, experienceLevel,
startedAt, endedAt, status, interviewerCharacter. -/
structure Interview where
  id : Nat
  userId : Nat
  resumeId : Option Nat
  targetRole : String
  experienceLevel : String
  startedAt : Nat
  endedAt : Option Nat
  status : String
  interviewerCharacter : String
deriving DecidableEq, Repr

/-- Row of the `resumes` table (`db.ts`).  `parsedContent` is the raw TEXT
column: `none` models SQL NULL, `some s` the stored serialized string. -/
structure ResumeRow where
  id : Nat
  userId : Nat
  fileName : String
  fileUrl : String
  uploadedAt : Nat
  parsedContent : Option String
deriving DecidableEq, Repr

/-- The persistent store: the three tables the claims are about, each in
rowid order, the AUTOINCREMENT counters, and the bookkeeping `clock`
recording the latest wall-clock tick drawn by any write. -/
structure Store where
  resumes : List ResumeRow
  interviews : List Interview
  messages : List InterviewMessage
  nextResumeId : Nat
  nextInterviewId : Nat
  nextMessageId : Nat
  clock : Nat
deriving DecidableEq, Repr

/-- The store of a fresh database: empty tables, AUTOINCREMENT counters at 1. -/
def emptyStore : Store :=
  { resumes := [], interviews := [], messages := [],
    nextResumeId := 1, nextInterviewId := 1, nextMessageId := 1, clock := 0 }

/-! ## Record access layer (`SQLiteStorage`, storage.ts) -/

/-- `SQLiteStorage.getInterview`: SELECT * FROM interviews WHERE id = ?
(first row with the key; keys are unique in reachable stores). -/
def getInterview (s : Store) (id : Nat) : Option Interview :=
  s.interviews.find? (fun iv => iv.id == id)

/-- `SQLiteStorage.getInterviewMessages`: SELECT * FROM interview_messages
WHERE interviewId = ? ORDER BY sentAt ASC.  The list is kept in rowid
order; theorem `reachable_inv` (fields `msgsSorted`) shows that in every
reachable store this order is already non-decreasing in `sentAt`, so it is
an ORDER BY sentAt ASC order (SQLite resolves ties by scan order, i.e.
rowid order, which the filter preserves). -/
def getInterviewMessages (s : Store) (interviewId : Nat) : List InterviewMessage :=
  s.messages.filter (fun m => m.interviewId == interviewId)

/-- `SQLiteStorage.createInterview`: INSERT with status `in_progress`,
startedAt = now, endedAt NULL, then re-fetch by the generated rowid (the
re-fetch is the returned value). -/
def createInterview (s : Store) (userId : Nat) (resumeId : Option Nat)
    (targetRole experienceLevel interviewerCharacter : String) (now : Nat) :
    Interview × Store :=
  let iv : Interview :=
    { id := s.nextInterviewId, userId := userId, resumeId := resumeId,
      targetRole := targetRole, experienceLevel := experienceLevel,
      startedAt := now, endedAt := none, status := "in_progress",
      interviewerCharacter := interviewerCharacter }
  (iv, { s with interviews := s.interviews ++ [iv],
                nextInterviewId := s.nextInterviewId + 1,
                clock := max s.clock now })

/-- The per-row effect of the UPDATE in `SQLiteStorage.updateInterviewStatus`:
rows whose id matches get the new status, and the new endedAt when one was
passed (`endedAt?` = none models the overload that leaves endedAt alone). -/
def applyStatusUpdate (id : Nat) (status : String) (endedAt? : Option Nat)
    (iv : Interview) : Interview :=
  if iv.id = id then
    { iv with status := status,
              endedAt := match endedAt? with
                         | some t => some t
                         | none => iv.endedAt }
  else iv

/-- `SQLiteStorage.updateInterviewStatus`: UPDATE interviews SET status
(and endedAt when provided) WHERE id = ?, then re-fetch by id. -/
def updateInterviewStatus (s : Store) (id : Nat) (status : String)
    (endedAt? : Option Nat) : Option Interview × Store :=
  let s2 : Store :=
    { s with interviews := s.interviews.map (applyStatusUpdate id status endedAt?),
             clock := match endedAt? with
                      | some t => max s.clock t
                      | none => s.clock }
  (getInterview s2 id, s2)

/-- `SQLiteStorage.createInterviewMessage`: INSERT with sentAt = now, then
re-fetch by the generated rowid. -/
def createInterviewMessage (s : Store) (interviewId : Nat)
    (sender content : String) (now : Nat) : InterviewMessage × Store :=
  let m : InterviewMessage :=
    { id := s.nextMessageId, interviewId := interviewId, sender := sender,
      content := content, sentAt := now }
  (m, { s with messages := s.messages ++ [m],
               nextMessageId := s.nextMessageId + 1,
               clock := max s.clock now })

/-- `SQLiteStorage.createResume`: INSERT with uploadedAt = now and
parsedContent NULL, then re-fetch by the generated rowid. -/
def createResume (s : Store) (userId : Nat) (fileName fileUrl : String)
    (now : Nat) : ResumeRow × Store :=
  let r : ResumeRow :=
    { id := s.nextResumeId, userId := userId, fileName := fileName,
      fileUrl := fileUrl, uploadedAt := now, parsedContent := none }
  (r, { s with resumes := s.resumes ++ [r],
               nextResumeId := s.nextResumeId + 1,
               clock := max s.clock now })

/-! ## Route layer (`registerRoutes`, routes.ts)

Each handler is modelled as a function from the store (plus the
authenticated actor id established by `validateSession` and the wall-clock
ticks it draws) to a response value and the store after the request.
`RouteError` mirrors the early-return error responses. -/

/-- The error responses a handler can answer before writing anything:
404 / 403 / 400 with the message sent by the source. -/
inductive RouteError
  | notFound (msg : String)
  | forbidden (msg : String)
  | badRequest (msg : String)
deriving DecidableEq, Repr

/-- The fixed greeting template of POST /api/interviews (routes.ts): the
string literal with `interview.interviewerCharacter` and
`interview.targetRole` spliced in; no external call is involved. -/
def openingMessage (interviewerCharacter targetRole : String) : String :=
  "Hello! I\x27m your " ++ interviewerCharacter ++
  " interviewer. Welcome to ChessView. Let\x27s start with a brief introduction. Could you tell me a bit about yourself and your background in " ++
  targetRole ++ "?"

/-- The resume ownership check of POST /api/interviews: with no resumeId
the check passes; otherwise the resume must resolve and belong to the
actor (`if (!resume || resume.userId !== req.user.id)` answers 403). -/
def resumeOwnershipOk (s : Store) (actor : Nat) : Option Nat → Bool
  | none => true
  | some rid =>
    match s.resumes.find? (fun r => r.id == rid) with
    | none => false
    | some r => r.userId == actor

/-- POST /api/interviews: check resume ownership, create the interview,
then synchronously seed the opening `ai` message from the fixed template.
`t1` is the tick drawn by createInterview, `t2` the one drawn by
createInterviewMessage. -/
def createInterviewRoute (s : Store) (actor : Nat) (resumeId : Option Nat)
    (targetRole experienceLevel interviewerCharacter : String)
    (t1 t2 : Nat) : Except RouteError Interview × Store :=
  if resumeOwnershipOk s actor resumeId then
    let (iv, s1) := createInterview s actor resumeId targetRole
        experienceLevel interviewerCharacter t1
    let (_, s2) := createInterviewMessage s1 iv.id "ai"
        (openingMessage iv.interviewerCharacter iv.targetRole) t2
    (Except.ok iv, s2)
  else
    (Except.error (RouteError.forbidden "Not authorized to use this resume"), s)

/-- PATCH /api/interviews/:id/end: 404 when the id resolves to no row, 403
when the actor is not the owner; otherwise it unconditionally calls
`updateInterviewStatus(id, "completed", new Date())` — the source performs
no check of the current status — and answers 200 with the re-fetched row. -/
def endInterviewRoute (s : Store) (actor id now : Nat) :
    Except RouteError (Option Interview) × Store :=
  match getInterview s id with
  | none => (Except.error (RouteError.notFound "Interview not found"), s)
  | some iv =>
    if iv.userId == actor then
      let (updated, s2) := updateInterviewStatus s iv.id "completed" (some now)
      (Except.ok updated, s2)
    else
      (Except.error (RouteError.forbidden "Not authorized to access this interview"), s)

/-- The outcome of the one external completion call of `getAIResponse`:
`failure` models the promise rejecting (network error, or a malformed
response making `response.choices[0].message` throw inside the try block);
`response c` models a completion object whose `content` field is `c`
(`none` = JSON null). -/
inductive AIOutcome
  | failure
  | response (content : Option String)
deriving DecidableEq, Repr

/-- The placeholder substituted by `content || "I\x27m processing..."` when the
completion succeeds but its content is null or the empty string. -/
def processingMessage : String :=
  "I\x27m processing your response. Please give me a moment."

/-- The fixed apology-and-continue message returned by the catch block of
`getAIResponse`. -/
def fallbackApology : String :=
  "I apologize, but I\x27m having trouble forming a response. Let\x27s continue our interview. Could you tell me more about your experience?"

/-- `getAIResponse` (routes.ts): the prompt assembly (history formatting,
system message, resume context) is read-only and does not influence the
store, so it is elided; what remains is how the outcome of the external
call is mapped to the persisted reply text.  JS `||` treats both null and
the empty string as falsy. -/
def getAIResponse (o : AIOutcome) : String :=
  match o with
  | AIOutcome.failure => fallbackApology
  | AIOutcome.response none => processingMessage
  | AIOutcome.response (some c) => if c = "" then processingMessage else c

/-- POST /api/interviews/:id/messages: 404 / 403 / 400 checks in source
order (the 400 answers exactly when `interview.status !== "in_progress"`),
then persist the user message, consult the completion service, and persist
its reply (or the fallback).  `t1`, `t2` are the ticks drawn by the two
`createInterviewMessage` calls; `o` is the external-call oracle.  The zod
body validation only constrains `content` to be a string, which the typed
parameter already guarantees. -/
def postMessageRoute (s : Store) (actor id : Nat) (content : String)
    (o : AIOutcome) (t1 t2 : Nat) :
    Except RouteError (InterviewMessage × InterviewMessage) × Store :=
  match getInterview s id with
  | none => (Except.error (RouteError.notFound "Interview not found"), s)
  | some iv =>
    if iv.userId == actor then
      if iv.status == "in_progress" then
        let (userMessage, s1) := createInterviewMessage s iv.id "user" content t1
        let (aiMessage, s2) := createInterviewMessage s1 iv.id "ai" (getAIResponse o) t2
        (Except.ok (userMessage, aiMessage), s2)
      else
        (Except.error (RouteError.badRequest
          "Cannot send messages to a completed or cancelled interview"), s)
    else
      (Except.error (RouteError.forbidden "Not authorized to access this interview"), s)

/-- The prefix of POST /api/interviews/:id/messages up to and including the
persistence of the user message — the store state at the moment the
external completion call is issued (equivalently, the state left behind by
a crash between the first write and the reply write). -/
def postMessageUserOnly (s : Store) (actor id : Nat) (content : String)
    (t1 : Nat) : Except RouteError InterviewMessage × Store :=
  match getInterview s id with
  | none => (Except.error (RouteError.notFound "Interview not found"), s)
  | some iv =>
    if iv.userId == actor then
      if iv.status == "in_progress" then
        let (userMessage, s1) := createInterviewMessage s iv.id "user" content t1
        (Except.ok userMessage, s1)
      else
        (Except.error (RouteError.badRequest
          "Cannot send messages to a completed or cancelled interview"), s)
    else
      (Except.error (RouteError.forbidden "Not authorized to access this interview"), s)

/-! ## Export utility (`exportUtils.ts`)

The CSV writer works on raw SQLite rows (`db.prepare(query).all(...)`
without the Date/JSON rehydration of the storage layer), so the cell
values it sees are exactly SQL NULL, INTEGER or TEXT; the `Date` and
nested-object branches of `objectToCSVRow` are unreachable on this path
and the cell type below therefore has three constructors. -/

/-- A raw SQLite cell value as seen by `objectToCSVRow`. -/
inductive DBValue
  | vnull
  | vint (n : Nat)
  | vtext (s : String)
deriving DecidableEq, Repr

/-- Character-level model of the JS `String.replace` with the global regex
matching one double-quote character, replacing it by two. -/
def doubleQuotesAux : List Char → List Char
  | [] => []
  | c :: cs => if c = '"' then '"' :: '"' :: doubleQuotesAux cs else c :: doubleQuotesAux cs

/-- Models the JS `value.replace` doubling every embedded double quote. -/
def doubleQuotes (s : String) : String := ⟨doubleQuotesAux s.data⟩

/-- The per-cell escaping of `objectToCSVRow`: NULL to the empty field, a
number to its decimal text wrapped in quotes (`String(value)` contains no
quote to double), TEXT wrapped in quotes with embedded quotes doubled. -/
def escapeField : DBValue → String
  | DBValue.vnull => ""
  | DBValue.vint n => "\"" ++ doubleQuotes (toString n) ++ "\""
  | DBValue.vtext s => "\"" ++ doubleQuotes s ++ "\""

/-- Models `Array.prototype.join` with separator ",". -/
def joinComma : List String → String
  | [] => ""
  | [x] => x
  | x :: y :: xs => x ++ "," ++ joinComma (y :: xs)

/-- Models `Array.prototype.join` with separator a newline. -/
def joinNewline : List String → String
  | [] => ""
  | [x] => x
  | x :: y :: xs => x ++ "\n" ++ joinNewline (y :: xs)

/-- `objectToCSVRow`: escape every cell of the row and join with commas. -/
def objectToCSVRow (row : List DBValue) : String :=
  joinComma (row.map escapeField)

/-- The full text written by the CSV exporters: the header line
(`Object.keys(rows[0]).join(',')`) followed by one escaped line per row,
joined by newlines. -/
def exportContent (headers : List String) (rows : List (List DBValue)) : String :=
  joinNewline (joinComma headers :: rows.map objectToCSVRow)

/-- The column names of the interviews table in CREATE TABLE order, which
is the key order `Object.keys` yields for a row of SELECT *. -/
def interviewColumns : List String :=
  ["id", "userId", "resumeId", "targetRole", "experienceLevel",
   "startedAt", "endedAt", "status", "interviewerCharacter"]

/-- The stored TEXT form of a timestamp tick.  The source stores
`Date.toISOString()` strings; ticks being abstract, their decimal numeral
stands in for the ISO-8601 text (like it, injective and free of comma,
quote and newline characters). -/
def isoOfTime (t : Nat) : String := toString t

/-- A raw interviews row as a cell list, in column order. -/
def interviewDBRow (iv : Interview) : List DBValue :=
  [DBValue.vint iv.id, DBValue.vint iv.userId,
   (match iv.resumeId with | none => DBValue.vnull | some r => DBValue.vint r),
   DBValue.vtext iv.targetRole, DBValue.vtext iv.experienceLevel,
   DBValue.vtext (isoOfTime iv.startedAt),
   (match iv.endedAt with | none => DBValue.vnull | some t => DBValue.vtext (isoOfTime t)),
   DBValue.vtext iv.status, DBValue.vtext iv.interviewerCharacter]

/-- JS truthiness of the optional numeric filter `options.userId`:
undefined and 0 are falsy. -/
def truthyNum : Option Nat → Bool
  | none => false
  | some n => n != 0

/-- The filter options of `exportInterviewsToCSV` (`format` is always
`csv` on this path and carries no information). -/
structure ExportOptions where
  userId : Option Nat
  startDate : Option Nat
  endDate : Option Nat
deriving DecidableEq, Repr

/-- The WHERE clause assembled by `exportInterviewsToCSV`: an owner filter
when `options.userId` is truthy, and inclusive startedAt bounds when the
Date objects are present (a Date object is always truthy). -/
def exportFilter (o : ExportOptions) (iv : Interview) : Bool :=
  (if truthyNum o.userId then iv.userId == o.userId.getD 0 else true) &&
  (if o.startDate.isSome then o.startDate.getD 0 ≤ iv.startedAt else true) &&
  (if o.endDate.isSome then iv.startedAt ≤ o.endDate.getD 0 else true)

/-- Stable insertion of one interview into a startedAt-descending list,
used to model ORDER BY startedAt DESC. -/
def insertStartedDesc (iv : Interview) : List Interview → List Interview
  | [] => [iv]
  | x :: xs => if iv.startedAt > x.startedAt then iv :: x :: xs
               else x :: insertStartedDesc iv xs

/-- ORDER BY startedAt DESC as a stable insertion sort. -/
def sortStartedDesc : List Interview → List Interview
  | [] => []
  | x :: xs => insertStartedDesc x (sortStartedDesc xs)

/-- The value `exportInterviewsToCSV` resolves with: either the literal
no-match message, or a written file (the path construction and
`fs.writeFileSync` are file-system effects; the constructor carries the
CSV text written). -/
inductive ExportOutcome
  | message (m : String)
  | file (content : String)
deriving DecidableEq, Repr

/-- `exportInterviewsToCSV`: build the filtered, startedAt-descending row
set; with zero rows resolve with the literal message (a success), else
write the header + rows text.  The `Except` layer carries the catch-block
rethrow (`Failed to export interviews`), which the in-model query never
triggers. -/
def exportInterviewsToCSV (s : Store) (o : ExportOptions) :
    Except String ExportOutcome :=
  let interviews := sortStartedDesc (s.interviews.filter (exportFilter o))
  if interviews = [] then
    Except.ok (ExportOutcome.message "No interviews found matching the criteria")
  else
    Except.ok (ExportOutcome.file
      (exportContent interviewColumns (interviews.map interviewDBRow)))

/-! ## CSV re-parsing

A standard RFC-4180-style reader for the produced delimited text, used to
state the round-trip property: one pass over the characters tracking
whether the scanner is at a field start, inside an unquoted field, inside
a quoted field, or just past a closing quote.  A field read back is either
the empty unquoted field (NULL) or a string. -/

/-- A field recovered by the reader: an empty unquoted field (the escape of
NULL) or the text of the field. -/
inductive CSVField
  | fnull
  | fstr (s : String)
deriving DecidableEq, Repr

/-- Scanner mode: at a field start / in an unquoted field / inside quotes /
just after a closing quote. -/
inductive CSVMode
  | start
  | unq
  | inq
  | afterq
deriving DecidableEq, Repr

/-- One-pass CSV reader.  Arguments: remaining characters, mode, characters
of the current field, fields of the current record, finished records. -/
def parseCSVAux : List Char → CSVMode → List Char → List CSVField →
    List (List CSVField) → List (List CSVField)
  | [], CSVMode.start, _, row, rows =>
    if row = [] then rows else rows ++ [row ++ [CSVField.fnull]]
  | [], CSVMode.unq, acc, row, rows => rows ++ [row ++ [CSVField.fstr ⟨acc⟩]]
  | [], CSVMode.inq, acc, row, rows => rows ++ [row ++ [CSVField.fstr ⟨acc⟩]]
  | [], CSVMode.afterq, acc, row, rows => rows ++ [row ++ [CSVField.fstr ⟨acc⟩]]
  | c :: cs, CSVMode.start, _, row, rows =>
    if c = '"' then parseCSVAux cs CSVMode.inq [] row rows
    else if c = ',' then parseCSVAux cs CSVMode.start [] (row ++ [CSVField.fnull]) rows
    else if c = '\n' then parseCSVAux cs CSVMode.start [] [] (rows ++ [row ++ [CSVField.fnull]])
    else parseCSVAux cs CSVMode.unq [c] row rows
  | c :: cs, CSVMode.unq, acc, row, rows =>
    if c = ',' then parseCSVAux cs CSVMode.start [] (row ++ [CSVField.fstr ⟨acc⟩]) rows
    else if c = '\n' then parseCSVAux cs CSVMode.start [] [] (rows ++ [row ++ [CSVField.fstr ⟨acc⟩]])
    else parseCSVAux cs CSVMode.unq (acc ++ [c]) row rows
  | c :: cs, CSVMode.inq, acc, row, rows =>
    if c = '"' then parseCSVAux cs CSVMode.afterq acc row rows
    else parseCSVAux cs CSVMode.inq (acc ++ [c]) row rows
  | c :: cs, CSVMode.afterq, acc, row, rows =>
    if c = '"' then parseCSVAux cs CSVMode.inq (acc ++ ['"']) row rows
    else if c = ',' then parseCSVAux cs CSVMode.start [] (row ++ [CSVField.fstr ⟨acc⟩]) rows
    else if c = '\n' then parseCSVAux cs CSVMode.start [] [] (rows ++ [row ++ [CSVField.fstr ⟨acc⟩]])
    else parseCSVAux cs CSVMode.unq acc row rows

/-- Parse a whole delimited text into its records. -/
def parseCSV (s : String) : List (List CSVField) :=
  parseCSVAux s.data CSVMode.start [] [] []

/-- The field the reader is expected to recover from an escaped cell:
NULL reads back as the empty unquoted field, a number as its decimal text,
TEXT as itself. -/
def fieldOfDB : DBValue → CSVField
  | DBValue.vnull => CSVField.fnull
  | DBValue.vint n => CSVField.fstr (toString n)
  | DBValue.vtext s => CSVField.fstr s

/-! ## Resume read path and the JSON.parse model (for `getResume` /
`getResumesByUser`, storage.ts)

`JSON.parse` is a JS builtin that throws on invalid input.  It is modelled
by a total recursive-descent parser over a JSON value type returning
`Except` (the `error` constructor standing for the thrown SyntaxError);
string escape sequences are simplified away (a backslash is an ordinary
character), which does not affect any claim: what matters is that the
parser is total, succeeds on well-formed structured data and fails on
corrupt text. -/

/-- Structured JSON values. -/
inductive Json
  | null
  | bool (b : Bool)
  | num (n : Nat)
  | str (s : String)
  | arr (elems : List Json)
  | obj (fields : List (String × Json))

/-- Drop leading JSON whitespace. -/
def skipWs : List Char → List Char
  | [] => []
  | c :: cs => if c = ' ' || c = '\n' || c = '\t' || c = '\r' then skipWs cs else c :: cs

/-- Consume an expected literal tail (e.g. "ull" after the leading 'n'). -/
def expectLit : List Char → List Char → Except String (List Char)
  | [], cs => Except.ok cs
  | _ :: _, [] => Except.error "Unexpected end of JSON input"
  | l :: ls, c :: cs =>
    if c = l then expectLit ls cs else Except.error "Unexpected token"

/-- Read a JSON string body up to the closing quote (escapes simplified). -/
def readStringBody (acc : List Char) : List Char → Except String (String × List Char)
  | [] => Except.error "Unterminated string in JSON"
  | c :: cs => if c = '"' then Except.ok (⟨acc.reverse⟩, cs) else readStringBody (c :: acc) cs

/-- Read a run of decimal digits (the leading digit has been checked). -/
def readNatBody (acc : Nat) : List Char → Nat × List Char
  | [] => (acc, [])
  | c :: cs =>
    if c.isDigit then readNatBody (acc * 10 + (c.toNat - 48)) cs else (acc, c :: cs)

mutual

/-- Fueled JSON value parser. -/
def parseJsonVal : Nat → List Char → Except String (Json × List Char)
  | 0, _ => Except.error "JSON nesting too deep"
  | fuel + 1, cs =>
    match skipWs cs with
    | [] => Except.error "Unexpected end of JSON input"
    | c :: rest =>
      if c = 'n' then (expectLit ['u', 'l', 'l'] rest).map (fun r => (Json.null, r))
      else if c = 't' then (expectLit ['r', 'u', 'e'] rest).map (fun r => (Json.bool true, r))
      else if c = 'f' then (expectLit ['a', 'l', 's', 'e'] rest).map (fun r => (Json.bool false, r))
      else if c = '"' then (readStringBody [] rest).map (fun p => (Json.str p.1, p.2))
      else if c.isDigit then
        let p := readNatBody (c.toNat - 48) rest
        Except.ok (Json.num p.1, p.2)
      else if c = '[' then
        match skipWs rest with
        | ']' :: r2 => Except.ok (Json.arr [], r2)
        | r2 => (parseJsonArr fuel r2).map (fun p => (Json.arr p.1, p.2))
      else if c = '\x7b' then
        match skipWs rest with
        | '\x7d' :: r2 => Except.ok (Json.obj [], r2)
        | r2 => (parseJsonObj fuel r2).map (fun p => (Json.obj p.1, p.2))
      else Except.error "Unexpected token"

/-- Parse the elements of a non-empty array, starting at the first element. -/
def parseJsonArr : Nat → List Char → Except String (List Json × List Char)
  | 0, _ => Except.error "JSON nesting too deep"
  | fuel + 1, cs =>
    match parseJsonVal fuel cs with
    | Except.error e => Except.error e
    | Except.ok (v, rest) =>
      match skipWs rest with
      | ',' :: r2 => (parseJsonArr fuel r2).map (fun p => (v :: p.1, p.2))
      | ']' :: r2 => Except.ok ([v], r2)
      | _ => Except.error "Expected comma or closing bracket in JSON array"

/-- Parse the members of a non-empty object, starting at the first key. -/
def parseJsonObj : Nat → List Char → Except String (List (String × Json) × List Char)
  | 0, _ => Except.error "JSON nesting too deep"
  | fuel + 1, cs =>
    match skipWs cs with
    | '"' :: r1 =>
      match readStringBody [] r1 with
      | Except.error e => Except.error e
      | Except.ok (k, r2) =>
        match skipWs r2 with
        | ':' :: r3 =>
          match parseJsonVal fuel r3 with
          | Except.error e => Except.error e
          | Except.ok (v, r4) =>
            match skipWs r4 with
            | ',' :: r5 => (parseJsonObj fuel r5).map (fun p => ((k, v) :: p.1, p.2))
            | '\x7d' :: r5 => Except.ok ([(k, v)], r5)
            | _ => Except.error "Expected comma or closing brace in JSON object"
        | _ => Except.error "Expected colon in JSON object"
    | _ => Except.error "Expected string key in JSON object"

end

/-- The JSON.parse model: parse one value and require only trailing
whitespace after it; `error` stands for the SyntaxError JS would throw. -/
def jsonParse (s : String) : Except String Json :=
  match parseJsonVal (s.length + 1) s.data with
  | Except.error e => Except.error e
  | Except.ok (v, rest) =>
    match skipWs rest with
    | [] => Except.ok v
    | _ => Except.error "Unexpected trailing characters in JSON"

/-- The `parsedContent` field of a resume as the storage layer returns it:
absent (NULL column), a parsed structure, or — when JSON.parse threw and
the catch block kept the row as read — the raw stored string. -/
inductive ParsedContent
  | absent
  | parsed (j : Json)
  | raw (s : String)

/-- A resume as returned by the storage layer (row with `parsedContent`
rehydrated and `uploadedAt` converted). -/
structure Resume where
  id : Nat
  userId : Nat
  fileName : String
  fileUrl : String
  uploadedAt : Nat
  parsedContent : ParsedContent

/-- The row mapping shared by `getResume` and `getResumesByUser`: try
JSON.parse on a present parsedContent; the catch block swallows a parse
failure and leaves the raw value in place. -/
def rehydrateResume (r : ResumeRow) : Resume :=
  { id := r.id, userId := r.userId, fileName := r.fileName,
    fileUrl := r.fileUrl, uploadedAt := r.uploadedAt,
    parsedContent :=
      match r.parsedContent with
      | none => ParsedContent.absent
      | some rawStr =>
        match jsonParse rawStr with
        | Except.ok j => ParsedContent.parsed j
        | Except.error _ => ParsedContent.raw rawStr }

/-- The same row mapping with the try/catch around JSON.parse removed: the
parse failure propagates.  Used to state that the catch block is what
makes the read total. -/
def rehydrateResumeStrict (r : ResumeRow) : Except String Resume :=
  match r.parsedContent with
  | none => Except.ok { id := r.id, userId := r.userId, fileName := r.fileName,
                        fileUrl := r.fileUrl, uploadedAt := r.uploadedAt,
                        parsedContent := ParsedContent.absent }
  | some rawStr =>
    match jsonParse rawStr with
    | Except.ok j => Except.ok { id := r.id, userId := r.userId, fileName := r.fileName,
                                 fileUrl := r.fileUrl, uploadedAt := r.uploadedAt,
                                 parsedContent := ParsedContent.parsed j }
    | Except.error e => Except.error e

/-- `SQLiteStorage.getResume`: SELECT by id, then rehydrate. -/
def getResume (s : Store) (id : Nat) : Option Resume :=
  (s.resumes.find? (fun r => r.id == id)).map rehydrateResume

/-- `getResume` with the inner try/catch removed — the read a caller would
see if the JSON.parse failure were not swallowed. -/
def getResumeStrict (s : Store) (id : Nat) : Except String (Option Resume) :=
  match s.resumes.find? (fun r => r.id == id) with
  | none => Except.ok none
  | some r => (rehydrateResumeStrict r).map some

/-- Stable insertion for ORDER BY uploadedAt DESC. -/
def insertUploadedDesc (r : ResumeRow) : List ResumeRow → List ResumeRow
  | [] => [r]
  | x :: xs => if r.uploadedAt > x.uploadedAt then r :: x :: xs
               else x :: insertUploadedDesc r xs

/-- ORDER BY uploadedAt DESC as a stable insertion sort. -/
def sortUploadedDesc : List ResumeRow → List ResumeRow
  | [] => []
  | x :: xs => insertUploadedDesc x (sortUploadedDesc xs)

/-- `SQLiteStorage.getResumesByUser`: SELECT by owner ORDER BY uploadedAt
DESC, then rehydrate every row with the same swallowing row mapping. -/
def getResumesByUser (s : Store) (userId : Nat) : List Resume :=
  (sortUploadedDesc (s.resumes.filter (fun r => r.userId == userId))).map rehydrateResume

/-! ## Reachability and the store invariant

`Reachable` holds of exactly the stores that the HTTP interface can
produce from a fresh database: every constructor applies one route handler
(failed handlers leave the store unchanged, so no success hypotheses are
needed), drawing wall-clock ticks that never decrease.  The crash step
keeps the state a relay request leaves behind when the process dies
between persisting the user turn and persisting the reply. -/

/-- The shape of an interview history after its seeded greeting: a
concatenation of relay blocks, each either a user turn followed by its
generated reply, or a dangling user turn (a crashed relay call). -/
inductive TailOk : List InterviewMessage → Prop
  | nil : TailOk []
  | userBlock (u : InterviewMessage) (t : List InterviewMessage) :
      u.sender = "user" → TailOk t → TailOk (u :: t)
  | pairBlock (u a : InterviewMessage) (t : List InterviewMessage) :
      u.sender = "user" → a.sender = "ai" → TailOk t → TailOk (u :: a :: t)

/-- Stores reachable through the HTTP interface from a fresh database. -/
inductive Reachable : Store → Prop
  | init : Reachable emptyStore
  | createResumeStep (s : Store) (userId : Nat) (fileName fileUrl : String)
      (now : Nat) : Reachable s → s.clock ≤ now →
      Reachable (createResume s userId fileName fileUrl now).2
  | createInterviewStep (s : Store) (actor : Nat) (resumeId : Option Nat)
      (targetRole experienceLevel interviewerCharacter : String) (t1 t2 : Nat) :
      Reachable s → s.clock ≤ t1 → t1 ≤ t2 →
      Reachable (createInterviewRoute s actor resumeId targetRole
        experienceLevel interviewerCharacter t1 t2).2
  | endInterviewStep (s : Store) (actor id now : Nat) :
      Reachable s → s.clock ≤ now →
      Reachable (endInterviewRoute s actor id now).2
  | postMessageStep (s : Store) (actor id : Nat) (content : String)
      (o : AIOutcome) (t1 t2 : Nat) :
      Reachable s → s.clock ≤ t1 → t1 ≤ t2 →
      Reachable (postMessageRoute s actor id content o t1 t2).2
  | postMessageCrashStep (s : Store) (actor id : Nat) (content : String)
      (t1 : Nat) : Reachable s → s.clock ≤ t1 →
      Reachable (postMessageUserOnly s actor id content t1).2

/-- The inductive invariant of reachable stores: fresh-id bounds, message
rows referencing existing interviews, timestamps bounded by the clock and
non-decreasing in rowid order, the status domain actually assigned by the
routes, the status/endedAt coupling, and the seeded-greeting shape of
every interview history. -/
structure StoreInv (s : Store) : Prop where
  ividLt : ∀ iv ∈ s.interviews, iv.id < s.nextInterviewId
  msgIvEx : ∀ m ∈ s.messages, ∃ iv ∈ s.interviews, iv.id = m.interviewId
  msgLeClock : ∀ m ∈ s.messages, m.sentAt ≤ s.clock
  startLeClock : ∀ iv ∈ s.interviews, iv.startedAt ≤ s.clock
  msgsSorted : s.messages.Pairwise (fun a b => a.sentAt ≤ b.sentAt)
  statusDom : ∀ iv ∈ s.interviews, iv.status = "in_progress" ∨ iv.status = "completed"
  endedInv : ∀ iv ∈ s.interviews,
      (iv.status = "in_progress" → iv.endedAt = none) ∧
      (iv.status ≠ "in_progress" → ∃ t, iv.endedAt = some t ∧ iv.startedAt ≤ t)
  histOk : ∀ iv ∈ s.interviews, ∃ m rest,
      getInterviewMessages s iv.id = m :: rest ∧ m.sender = "ai" ∧
      m.content = openingMessage iv.interviewerCharacter iv.targetRole ∧ TailOk rest

/-! ## Sample stores (used by concrete witnesses) -/

/-- The store after user 7 creates interview 1 ("backend", "senior",
persona "rook") on a fresh database. -/
def sampleCreate : Store :=
  (createInterviewRoute emptyStore 7 none "backend" "senior" "rook" 1 2).2

/-- `sampleCreate` after PATCH /api/interviews/1/end by its owner. -/
def sampleEnded : Store := (endInterviewRoute sampleCreate 7 1 3).2

/-- `sampleCreate` after one relay turn whose external call fails. -/
def sampleSecond : Store :=
  (postMessageRoute sampleCreate 7 1 "I have 3 years of Go experience"
    AIOutcome.failure 3 4).2

/-- A store holding one interview already in the terminal status
`cancelled` (used to probe the end-interview operation on a terminal
row). -/
def cancelledStore : Store :=
  { emptyStore with
    interviews := [⟨1, 7, none, "backend", "senior", 0, some 5, "cancelled", "rook"⟩],
    nextInterviewId := 2 }

/-- A store holding one resume whose stored parsedContent column is not
valid structured data. -/
def corruptStore : Store :=
  { emptyStore with
    resumes := [⟨1, 7, "resume.pdf", "/uploads/resume.pdf", 0, some "not json"⟩],
    nextResumeId := 2 }

/-! ## Invariant preservation -/

theorem TailOk.append_user {t : List InterviewMessage} (h : TailOk t)
    (u : InterviewMessage) (hu : u.sender = "user") : TailOk (t ++ [u]) := by
  induction h with
  | nil => exact TailOk.userBlock u [] hu TailOk.nil
  | userBlock u' t' hu' _ ih => exact TailOk.userBlock u' _ hu' ih
  | pairBlock u' a' t' hu' ha' _ ih => exact TailOk.pairBlock u' a' _ hu' ha' ih

theorem TailOk.append_pair {t : List InterviewMessage} (h : TailOk t)
    (u a : InterviewMessage) (hu : u.sender = "user") (ha : a.sender = "ai") :
    TailOk (t ++ [u, a]) := by
  induction h with
  | nil => exact TailOk.pairBlock u a [] hu ha TailOk.nil
  | userBlock u' t' hu' _ ih => exact TailOk.userBlock u' _ hu' ih
  | pairBlock u' a' t' hu' ha' _ ih => exact TailOk.pairBlock u' a' _ hu' ha' ih

/-- In a well-shaped history tail, every generated reply has a user turn
strictly before it. -/
theorem TailOk.ai_preceded {t : List InterviewMessage} (h : TailOk t) :
    ∀ (i : Nat) (m : InterviewMessage), t[i]? = some m → m.sender = "ai" →
    ∃ (j : Nat) (u : InterviewMessage), j < i ∧ t[j]? = some u ∧ u.sender = "user" := by
  induction h with
  | nil => intro i m hm _; simp at hm
  | userBlock u t' hu _ ih =>
    intro i m hm hai
    match i with
    | 0 =>
      simp at hm
      rw [← hm] at hai
      rw [hu] at hai
      exact absurd hai (by decide)
    | Nat.succ n =>
      simp only [List.getElem?_cons_succ] at hm
      obtain ⟨j, u', hj, hju, hu'⟩ := ih n m hm hai
      exact ⟨j + 1, u', by omega, by simpa using hju, hu'⟩
  | pairBlock u a t' hu ha _ ih =>
    intro i m hm hai
    match i with
    | 0 =>
      simp at hm
      rw [← hm] at hai
      rw [hu] at hai
      exact absurd hai (by decide)
    | 1 => exact ⟨0, u, by omega, rfl, hu⟩
    | Nat.succ (Nat.succ n) =>
      simp only [List.getElem?_cons_succ] at hm
      obtain ⟨j, u', hj, hju, hu'⟩ := ih n m hm hai
      exact ⟨j + 2, u', by omega, by simpa using hju, hu'⟩

theorem storeInv_empty : StoreInv emptyStore := by
  constructor <;> simp [emptyStore]

theorem storeInv_createResume (s : Store) (inv : StoreInv s) (userId : Nat)
    (fileName fileUrl : String) (now : Nat) :
    StoreInv (createResume s userId fileName fileUrl now).2 := by
  obtain ⟨h1, h2, h3, h4, h5, h6, h7, h8⟩ := inv
  refine ⟨?_, ?_, ?_, ?_, ?_, ?_, ?_, ?_⟩
  · simpa [createResume] using h1
  · simpa [createResume] using h2
  · intro m hm
    exact (h3 m (by simpa [createResume] using hm)).trans (le_max_left _ _)
  · intro iv hiv
    exact (h4 iv (by simpa [createResume] using hiv)).trans (le_max_left _ _)
  · simpa [createResume] using h5
  · simpa [createResume] using h6
  · simpa [createResume] using h7
  · intro iv hiv
    simpa [createResume, getInterviewMessages] using
      h8 iv (by simpa [createResume] using hiv)

theorem storeInv_createInterviewRoute (s : Store) (inv : StoreInv s) (actor : Nat)
    (resumeId : Option Nat) (targetRole experienceLevel interviewerCharacter : String)
    (t1 t2 : Nat) (ht1 : s.clock ≤ t1) (ht2 : t1 ≤ t2) :
    StoreInv (createInterviewRoute s actor resumeId targetRole experienceLevel
      interviewerCharacter t1 t2).2 := by
  by_cases hok : resumeOwnershipOk s actor resumeId = true
  · simp only [createInterviewRoute, hok, if_true, createInterview,
      createInterviewMessage]
    refine ⟨?_, ?_, ?_, ?_, ?_, ?_, ?_, ?_⟩
    · intro iv hiv
      simp only [List.mem_append, List.mem_singleton] at hiv
      rcases hiv with hiv | rfl
      · exact Nat.lt_succ_of_lt (inv.ividLt iv hiv)
      · exact Nat.lt_succ_self _
    · intro m hm
      simp only [List.mem_append, List.mem_singleton] at hm
      rcases hm with hm | rfl
      · obtain ⟨iv0, hiv0, hid⟩ := inv.msgIvEx m hm
        exact ⟨iv0, by simp [hiv0], hid⟩
      · exact ⟨⟨s.nextInterviewId, actor, resumeId, targetRole, experienceLevel,
          t1, none, "in_progress", interviewerCharacter⟩, by simp, rfl⟩
    · intro m hm
      simp only [List.mem_append, List.mem_singleton] at hm
      rcases hm with hm | rfl
      · exact le_trans (inv.msgLeClock m hm)
          (le_trans (le_max_left _ _) (le_max_left _ _))
      · exact le_max_right _ _
    · intro iv hiv
      simp only [List.mem_append, List.mem_singleton] at hiv
      rcases hiv with hiv | rfl
      · exact le_trans (inv.startLeClock iv hiv)
          (le_trans (le_max_left _ _) (le_max_left _ _))
      · exact le_trans (le_max_right _ _) (le_max_left _ _)
    · rw [List.pairwise_append]
      refine ⟨inv.msgsSorted, by simp, ?_⟩
      intro a ha b hb
      simp only [List.mem_singleton] at hb
      subst hb
      exact le_trans (inv.msgLeClock a ha) (le_trans ht1 ht2)
    · intro iv hiv
      simp only [List.mem_append, List.mem_singleton] at hiv
      rcases hiv with hiv | rfl
      · exact inv.statusDom iv hiv
      · exact Or.inl rfl
    · intro iv hiv
      simp only [List.mem_append, List.mem_singleton] at hiv
      rcases hiv with hiv | rfl
      · exact inv.endedInv iv hiv
      · exact ⟨fun _ => rfl, fun h => absurd rfl h⟩
    · intro iv hiv
      simp only [List.mem_append, List.mem_singleton] at hiv
      rcases hiv with hiv | rfl
      · obtain ⟨m, rest, hh, hs, hc, ht⟩ := inv.histOk iv hiv
        refine ⟨m, rest, ?_, hs, hc, ht⟩
        have hne : iv.id ≠ s.nextInterviewId :=
          Nat.ne_of_lt (inv.ividLt iv hiv)
        simp only [getInterviewMessages, List.filter_append] at hh ⊢
        simp [Ne.symm hne, hh]
      · refine ⟨⟨s.nextMessageId, s.nextInterviewId, "ai",
          openingMessage interviewerCharacter targetRole, t2⟩, [], ?_, rfl, rfl,
          TailOk.nil⟩
        have hold : s.messages.filter
            (fun m => m.interviewId == s.nextInterviewId) = [] := by
          rw [List.filter_eq_nil_iff]
          intro m hm
          obtain ⟨iv0, hiv0, hid⟩ := inv.msgIvEx m hm
          have hlt := inv.ividLt iv0 hiv0
          simp only [← hid]
          simp only [beq_iff_eq]
          omega
        simp only [getInterviewMessages, List.filter_append]
        simp [hold]
  · simp only [createInterviewRoute, hok, if_false, Bool.false_eq_true]
    exact inv

theorem applyStatusUpdate_id (id : Nat) (status : String) (endedAt? : Option Nat)
    (iv : Interview) : (applyStatusUpdate id status endedAt? iv).id = iv.id := by
  unfold applyStatusUpdate
  split <;> rfl

theorem applyStatusUpdate_startedAt (id : Nat) (status : String)
    (endedAt? : Option Nat) (iv : Interview) :
    (applyStatusUpdate id status endedAt? iv).startedAt = iv.startedAt := by
  unfold applyStatusUpdate
  split <;> rfl

theorem applyStatusUpdate_character (id : Nat) (status : String)
    (endedAt? : Option Nat) (iv : Interview) :
    (applyStatusUpdate id status endedAt? iv).interviewerCharacter =
      iv.interviewerCharacter := by
  unfold applyStatusUpdate
  split <;> rfl

theorem applyStatusUpdate_targetRole (id : Nat) (status : String)
    (endedAt? : Option Nat) (iv : Interview) :
    (applyStatusUpdate id status endedAt? iv).targetRole = iv.targetRole := by
  unfold applyStatusUpdate
  split <;> rfl

theorem storeInv_endInterviewRoute (s : Store) (inv : StoreInv s)
    (actor id now : Nat) (hnow : s.clock ≤ now) :
    StoreInv (endInterviewRoute s actor id now).2 := by
  unfold endInterviewRoute
  rcases hg : getInterview s id with _ | iv
  · exact inv
  · by_cases hu : (iv.userId == actor) = true
    · simp only [hu, if_true, updateInterviewStatus]
      refine ⟨?_, ?_, ?_, ?_, ?_, ?_, ?_, ?_⟩
      · intro iv2 hiv2
        simp only [List.mem_map] at hiv2
        obtain ⟨iv0, hiv0, rfl⟩ := hiv2
        rw [applyStatusUpdate_id]
        exact inv.ividLt iv0 hiv0
      · intro m hm
        obtain ⟨iv0, hiv0, hid⟩ := inv.msgIvEx m hm
        refine ⟨applyStatusUpdate iv.id "completed" (some now) iv0,
          List.mem_map_of_mem _ hiv0, ?_⟩
        rw [applyStatusUpdate_id]
        exact hid
      · intro m hm
        exact (inv.msgLeClock m hm).trans (le_max_left _ _)
      · intro iv2 hiv2
        simp only [List.mem_map] at hiv2
        obtain ⟨iv0, hiv0, rfl⟩ := hiv2
        rw [applyStatusUpdate_startedAt]
        exact (inv.startLeClock iv0 hiv0).trans (le_max_left _ _)
      · exact inv.msgsSorted
      · intro iv2 hiv2
        simp only [List.mem_map] at hiv2
        obtain ⟨iv0, hiv0, rfl⟩ := hiv2
        unfold applyStatusUpdate
        split
        · exact Or.inr rfl
        · exact inv.statusDom iv0 hiv0
      · intro iv2 hiv2
        simp only [List.mem_map] at hiv2
        obtain ⟨iv0, hiv0, rfl⟩ := hiv2
        unfold applyStatusUpdate
        split
        · refine ⟨fun h => ?_, fun _ => ⟨now, rfl, ?_⟩⟩
          · simp at h
          · exact (inv.startLeClock iv0 hiv0).trans hnow
        · exact inv.endedInv iv0 hiv0
      · intro iv2 hiv2
        simp only [List.mem_map] at hiv2
        obtain ⟨iv0, hiv0, rfl⟩ := hiv2
        obtain ⟨m, rest, hh, hs, hc, ht⟩ := inv.histOk iv0 hiv0
        refine ⟨m, rest, ?_, hs, ?_, ht⟩
        · rw [applyStatusUpdate_id]
          simpa [getInterviewMessages] using hh
        · rw [applyStatusUpdate_character, applyStatusUpdate_targetRole]
          exact hc
    · simp only [hu, if_false]
      simpa using inv

theorem storeInv_postMessageRoute (s : Store) (inv : StoreInv s)
    (actor id : Nat) (content : String) (o : AIOutcome) (t1 t2 : Nat)
    (ht1 : s.clock ≤ t1) (ht2 : t1 ≤ t2) :
    StoreInv (postMessageRoute s actor id content o t1 t2).2 := by
  unfold postMessageRoute
  rcases hg : getInterview s id with _ | iv
  · exact inv
  · by_cases hu : (iv.userId == actor) = true
    · by_cases hst : (iv.status == "in_progress") = true
      · simp only [hu, hst, if_true, createInterviewMessage]
        have hivmem : iv ∈ s.interviews := List.mem_of_find?_eq_some hg
        refine ⟨?_, ?_, ?_, ?_, ?_, ?_, ?_, ?_⟩
        · exact inv.ividLt
        · intro m hm
          simp only [List.append_assoc, List.mem_append, List.mem_singleton,
            List.mem_cons, List.not_mem_nil, or_false] at hm
          rcases hm with hm | rfl | rfl
          · exact inv.msgIvEx m hm
          · exact ⟨iv, hivmem, rfl⟩
          · exact ⟨iv, hivmem, rfl⟩
        · intro m hm
          simp only [List.append_assoc, List.mem_append, List.mem_singleton,
            List.mem_cons, List.not_mem_nil, or_false] at hm
          rcases hm with hm | rfl | rfl
          · exact (inv.msgLeClock m hm).trans
              ((le_max_left _ _).trans (le_max_left _ _))
          · exact (le_max_right _ _).trans (le_max_left _ _)
          · exact le_max_right _ _
        · intro iv2 hiv2
          exact (inv.startLeClock iv2 hiv2).trans
            ((le_max_left _ _).trans (le_max_left _ _))
        · rw [List.append_assoc, List.pairwise_append]
          refine ⟨inv.msgsSorted, ?_, ?_⟩
          · simp [List.pairwise_cons, ht2]
          · intro a ha b hb
            have hle := inv.msgLeClock a ha
            simp at hb
            rcases hb with rfl | rfl
            · exact hle.trans ht1
            · exact hle.trans (ht1.trans ht2)
        · exact inv.statusDom
        · exact inv.endedInv
        · intro iv2 hiv2
          obtain ⟨m, rest, hh, hs, hc, ht⟩ := inv.histOk iv2 hiv2
          by_cases hid : iv2.id = iv.id
          · refine ⟨m, rest ++ [⟨s.nextMessageId, iv.id, "user", content, t1⟩,
              ⟨s.nextMessageId + 1, iv.id, "ai", getAIResponse o, t2⟩], ?_, hs, hc,
              TailOk.append_pair ht _ _ rfl rfl⟩
            simp only [getInterviewMessages, List.append_assoc,
              List.filter_append] at hh ⊢
            rw [hh]
            simp [hid]
          · refine ⟨m, rest, ?_, hs, hc, ht⟩
            simp only [getInterviewMessages, List.append_assoc,
              List.filter_append] at hh ⊢
            rw [hh]
            simp [Ne.symm hid]
      · simp only [hst, if_false]
        simpa [hu] using inv
    · simp only [hu, if_false]
      simpa using inv

theorem storeInv_postMessageUserOnly (s : Store) (inv : StoreInv s)
    (actor id : Nat) (content : String) (t1 : Nat) (ht1 : s.clock ≤ t1) :
    StoreInv (postMessageUserOnly s actor id content t1).2 := by
  unfold postMessageUserOnly
  rcases hg : getInterview s id with _ | iv
  · exact inv
  · by_cases hu : (iv.userId == actor) = true
    · by_cases hst : (iv.status == "in_progress") = true
      · simp only [hu, hst, if_true, createInterviewMessage]
        have hivmem : iv ∈ s.interviews := List.mem_of_find?_eq_some hg
        refine ⟨?_, ?_, ?_, ?_, ?_, ?_, ?_, ?_⟩
        · exact inv.ividLt
        · intro m hm
          simp only [List.mem_append, List.mem_singleton] at hm
          rcases hm with hm | rfl
          · exact inv.msgIvEx m hm
          · exact ⟨iv, hivmem, rfl⟩
        · intro m hm
          simp only [List.mem_append, List.mem_singleton] at hm
          rcases hm with hm | rfl
          · exact (inv.msgLeClock m hm).trans (le_max_left _ _)
          · exact le_max_right _ _
        · intro iv2 hiv2
          exact (inv.startLeClock iv2 hiv2).trans (le_max_left _ _)
        · rw [List.pairwise_append]
          refine ⟨inv.msgsSorted, by simp, ?_⟩
          intro a ha b hb
          simp only [List.mem_singleton] at hb
          subst hb
          exact (inv.msgLeClock a ha).trans ht1
        · exact inv.statusDom
        · exact inv.endedInv
        · intro iv2 hiv2
          obtain ⟨m, rest, hh, hs, hc, ht⟩ := inv.histOk iv2 hiv2
          by_cases hid : iv2.id = iv.id
          · refine ⟨m, rest ++ [⟨s.nextMessageId, iv.id, "user", content, t1⟩],
              ?_, hs, hc, TailOk.append_user ht _ rfl⟩
            simp only [getInterviewMessages, List.filter_append] at hh ⊢
            rw [hh]
            simp [hid]
          · refine ⟨m, rest, ?_, hs, hc, ht⟩
            simp only [getInterviewMessages, List.filter_append] at hh ⊢
            rw [hh]
            simp [Ne.symm hid]
      · simp only [hst, if_false]
        simpa [hu] using inv
    · simp only [hu, if_false]
      simpa using inv

/-- Every reachable store satisfies the invariant. -/
theorem reachable_inv {s : Store} (h : Reachable s) : StoreInv s := by
  induction h with
  | init => exact storeInv_empty
  | createResumeStep s userId fileName fileUrl now _ _ ih =>
    exact storeInv_createResume s ih userId fileName fileUrl now
  | createInterviewStep s actor resumeId targetRole experienceLevel
      interviewerCharacter t1 t2 _ ht1 ht2 ih =>
    exact storeInv_createInterviewRoute s ih actor resumeId targetRole
      experienceLevel interviewerCharacter t1 t2 ht1 ht2
  | endInterviewStep s actor id now _ hnow ih =>
    exact storeInv_endInterviewRoute s ih actor id now hnow
  | postMessageStep s actor id content o t1 t2 _ ht1 ht2 ih =>
    exact storeInv_postMessageRoute s ih actor id content o t1 t2 ht1 ht2
  | postMessageCrashStep s actor id content t1 _ ht1 ih =>
    exact storeInv_postMessageUserOnly s ih actor id content t1 ht1

/-! ## CSV round-trip lemmas -/

theorem data_append (a b : String) : (a ++ b).data = a.data ++ b.data := rfl

theorem escapeField_text_data (s : String) :
    (escapeField (DBValue.vtext s)).data =
      '"' :: (doubleQuotesAux s.data ++ ['"']) := by
  show (("\"" ++ doubleQuotes s) ++ "\"").data = _
  rw [data_append, data_append]
  rfl

theorem escapeField_int_data (n : Nat) :
    (escapeField (DBValue.vint n)).data =
      '"' :: (doubleQuotesAux (toString n).data ++ ['"']) :=
  escapeField_text_data (toString n)

/-- Scanning a quote-doubled body inside a quoted field recovers the body. -/
theorem parseCSVAux_doubled (u : List Char) (cs acc : List Char)
    (row : List CSVField) (rows : List (List CSVField)) :
    parseCSVAux (doubleQuotesAux u ++ '"' :: cs) CSVMode.inq acc row rows =
      parseCSVAux cs CSVMode.afterq (acc ++ u) row rows := by
  induction u generalizing acc with
  | nil => simp [doubleQuotesAux, parseCSVAux]
  | cons c u ih =>
    by_cases hc : c = '"'
    · subst hc
      simp only [doubleQuotesAux, if_true, List.cons_append]
      rw [parseCSVAux, if_pos rfl, parseCSVAux, if_pos rfl, ih]
      simp
    · simp only [doubleQuotesAux, hc, if_false, List.cons_append]
      rw [parseCSVAux, if_neg hc, ih]
      simp

/-- A quoted field at a field start is consumed up to its closing quote. -/
theorem parseCSVAux_quoted_start (str : String) (cs : List Char)
    (row : List CSVField) (rows : List (List CSVField)) :
    parseCSVAux ('"' :: (doubleQuotesAux str.data ++ '"' :: cs))
        CSVMode.start [] row rows =
      parseCSVAux cs CSVMode.afterq str.data row rows := by
  rw [parseCSVAux, if_pos rfl, parseCSVAux_doubled]
  simp

/-- Consuming one escaped cell followed by a comma emits the recovered
field and returns to a field start. -/
theorem parseCSVAux_field_comma (v : DBValue) (cs : List Char)
    (row : List CSVField) (rows : List (List CSVField)) :
    parseCSVAux ((escapeField v).data ++ ',' :: cs) CSVMode.start [] row rows =
      parseCSVAux cs CSVMode.start [] (row ++ [fieldOfDB v]) rows := by
  cases v with
  | vnull =>
    show parseCSVAux (',' :: cs) CSVMode.start [] row rows = _
    rw [parseCSVAux, if_neg (by decide), if_pos rfl]
    rfl
  | vint n =>
    rw [escapeField_int_data, List.cons_append, List.append_assoc]
    rw [show ['"'] ++ ',' :: cs = '"' :: ',' :: cs from rfl]
    rw [parseCSVAux_quoted_start]
    rw [parseCSVAux, if_neg (by decide), if_pos rfl]
    rfl
  | vtext s =>
    rw [escapeField_text_data, List.cons_append, List.append_assoc]
    rw [show ['"'] ++ ',' :: cs = '"' :: ',' :: cs from rfl]
    rw [parseCSVAux_quoted_start]
    rw [parseCSVAux, if_neg (by decide), if_pos rfl]
    rfl

theorem joinComma_cons (x : String) (xs : List String) (h : xs ≠ []) :
    joinComma (x :: xs) = x ++ "," ++ joinComma xs := by
  cases xs with
  | nil => exact absurd rfl h
  | cons y ys => rfl

theorem joinNewline_cons (x : String) (xs : List String) (h : xs ≠ []) :
    joinNewline (x :: xs) = x ++ "\n" ++ joinNewline xs := by
  cases xs with
  | nil => exact absurd rfl h
  | cons y ys => rfl

/-- Consuming one full escaped record followed by a newline emits the
recovered record. -/
theorem parseCSVAux_row_newline (vs : List DBValue) (hvs : vs ≠ [])
    (cs : List Char) (row : List CSVField) (rows : List (List CSVField)) :
    parseCSVAux ((objectToCSVRow vs).data ++ '\n' :: cs) CSVMode.start [] row rows =
      parseCSVAux cs CSVMode.start [] [] (rows ++ [row ++ vs.map fieldOfDB]) := by
  induction vs generalizing row with
  | nil => exact absurd rfl hvs
  | cons v vs ih =>
    cases hvs2 : vs with
    | nil =>
      subst hvs2
      show parseCSVAux ((escapeField v).data ++ '\n' :: cs) CSVMode.start [] row rows = _
      cases v with
      | vnull =>
        show parseCSVAux ('\n' :: cs) CSVMode.start [] row rows = _
        rw [parseCSVAux, if_neg (by decide), if_neg (by decide), if_pos rfl]
        rfl
      | vint n =>
        rw [escapeField_int_data, List.cons_append, List.append_assoc]
        rw [show ['"'] ++ '\n' :: cs = '"' :: '\n' :: cs from rfl]
        rw [parseCSVAux_quoted_start]
        rw [parseCSVAux, if_neg (by decide), if_neg (by decide), if_pos rfl]
        rfl
      | vtext s =>
        rw [escapeField_text_data, List.cons_append, List.append_assoc]
        rw [show ['"'] ++ '\n' :: cs = '"' :: '\n' :: cs from rfl]
        rw [parseCSVAux_quoted_start]
        rw [parseCSVAux, if_neg (by decide), if_neg (by decide), if_pos rfl]
        rfl
    | cons v2 vs2 =>
      rw [← hvs2]
      have hne : vs ≠ [] := by rw [hvs2]; exact List.cons_ne_nil v2 vs2
      have hmapne : vs.map escapeField ≠ [] := by
        simpa using hne
      rw [show objectToCSVRow (v :: vs) =
            escapeField v ++ "," ++ objectToCSVRow vs from by
        unfold objectToCSVRow
        rw [List.map_cons, joinComma_cons _ _ hmapne]]
      rw [data_append, data_append]
      rw [show ("," : String).data = [','] from rfl]
      rw [List.append_assoc, List.append_assoc]
      rw [show [','] ++ ((objectToCSVRow vs).data ++ '\n' :: cs) =
            ',' :: ((objectToCSVRow vs).data ++ '\n' :: cs) from rfl]
      rw [parseCSVAux_field_comma, ih hne]
      simp

/-- Consuming one full escaped record at the end of the text emits the
recovered record.  The side condition rules out the degenerate single
all-NULL cell in an otherwise empty record, whose escape is the empty
text. -/
theorem parseCSVAux_row_end (vs : List DBValue) (row : List CSVField)
    (rows : List (List CSVField)) (hvs : vs ≠ [])
    (hrow : row ≠ [] ∨ vs ≠ [DBValue.vnull]) :
    parseCSVAux ((objectToCSVRow vs).data) CSVMode.start [] row rows =
      rows ++ [row ++ vs.map fieldOfDB] := by
  induction vs generalizing row with
  | nil => exact absurd rfl hvs
  | cons v vs ih =>
    cases hvs2 : vs with
    | nil =>
      subst hvs2
      show parseCSVAux ((escapeField v).data) CSVMode.start [] row rows = _
      cases v with
      | vnull =>
        have hr : row ≠ [] := by
          rcases hrow with h | h
          · exact h
          · exact absurd rfl h
        show parseCSVAux [] CSVMode.start [] row rows = _
        rw [parseCSVAux, if_neg hr]
        rfl
      | vint n =>
        rw [escapeField_int_data]
        rw [show '"' :: (doubleQuotesAux (toString n).data ++ ['"']) =
              '"' :: (doubleQuotesAux (toString n).data ++ '"' :: []) from rfl]
        rw [parseCSVAux_quoted_start]
        rfl
      | vtext s =>
        rw [escapeField_text_data]
        rw [show '"' :: (doubleQuotesAux s.data ++ ['"']) =
              '"' :: (doubleQuotesAux s.data ++ '"' :: []) from rfl]
        rw [parseCSVAux_quoted_start]
        rfl
    | cons v2 vs2 =>
      rw [← hvs2]
      have hne : vs ≠ [] := by rw [hvs2]; exact List.cons_ne_nil v2 vs2
      have hmapne : vs.map escapeField ≠ [] := by simpa using hne
      rw [show objectToCSVRow (v :: vs) =
            escapeField v ++ "," ++ objectToCSVRow vs from by
        unfold objectToCSVRow
        rw [List.map_cons, joinComma_cons _ _ hmapne]]
      rw [data_append, data_append]
      rw [show ("," : String).data = [','] from rfl]
      rw [List.append_assoc]
      rw [show [','] ++ (objectToCSVRow vs).data = ',' :: (objectToCSVRow vs).data from rfl]
      rw [parseCSVAux_field_comma]
      rw [ih _ hne (Or.inl (by simp))]
      simp

/-- Scanning an unquoted word accumulates it unchanged. -/
theorem parseCSVAux_word (u : List Char) (hu : ∀ c ∈ u, c ≠ ',' ∧ c ≠ '\n')
    (cs acc : List Char) (row : List CSVField) (rows : List (List CSVField)) :
    parseCSVAux (u ++ cs) CSVMode.unq acc row rows =
      parseCSVAux cs CSVMode.unq (acc ++ u) row rows := by
  induction u generalizing acc with
  | nil => simp
  | cons c u ih =>
    obtain ⟨hc1, hc2⟩ := hu c (List.mem_cons_self c u)
    rw [List.cons_append, parseCSVAux, if_neg hc1, if_neg hc2,
      ih (fun x hx => hu x (List.mem_cons_of_mem c hx))]
    simp

/-- Consuming the unquoted header line followed by a newline emits the
header fields. -/
theorem parseCSVAux_headers_newline (hs : List String) (hne : hs ≠ [])
    (hcond : ∀ h ∈ hs, h.data ≠ [] ∧ ∀ c ∈ h.data, c ≠ '"' ∧ c ≠ ',' ∧ c ≠ '\n')
    (cs : List Char) (row : List CSVField) (rows : List (List CSVField)) :
    parseCSVAux ((joinComma hs).data ++ '\n' :: cs) CSVMode.start [] row rows =
      parseCSVAux cs CSVMode.start [] [] (rows ++ [row ++ hs.map CSVField.fstr]) := by
  induction hs generalizing row with
  | nil => exact absurd rfl hne
  | cons h hs ih =>
    obtain ⟨hd, hch⟩ := hcond h (List.mem_cons_self h hs)
    cases hdat : h.data with
    | nil => exact absurd hdat hd
    | cons c u =>
      have hcu : ∀ x ∈ c :: u, x ≠ '"' ∧ x ≠ ',' ∧ x ≠ '\n' := by
        rw [← hdat]; exact hch
      obtain ⟨hq, hc, hn⟩ := hcu c (List.mem_cons_self c u)
      have hu : ∀ x ∈ u, x ≠ ',' ∧ x ≠ '\n' := fun x hx =>
        ⟨(hcu x (List.mem_cons_of_mem c hx)).2.1, (hcu x (List.mem_cons_of_mem c hx)).2.2⟩
      cases hhs : hs with
      | nil =>
        subst hhs
        show parseCSVAux (h.data ++ '\n' :: cs) CSVMode.start [] row rows = _
        rw [hdat, List.cons_append, parseCSVAux, if_neg hq, if_neg hc, if_neg hn]
        rw [parseCSVAux_word u hu, parseCSVAux, if_neg (by decide : ¬('\n' = ',')),
          if_pos rfl]
        have : (⟨[c] ++ u⟩ : String) = h := by
          rw [show [c] ++ u = c :: u from rfl, ← hdat]
        rw [this]
        rfl
      | cons h2 hs2 =>
        rw [← hhs]
        have hne2 : hs ≠ [] := by rw [hhs]; exact List.cons_ne_nil h2 hs2
        rw [joinComma_cons h hs hne2, data_append, data_append]
        rw [show ("," : String).data = [','] from rfl]
        rw [List.append_assoc, List.append_assoc]
        rw [show [','] ++ ((joinComma hs).data ++ '\n' :: cs) =
              ',' :: ((joinComma hs).data ++ '\n' :: cs) from rfl]
        rw [hdat, List.cons_append, parseCSVAux, if_neg hq, if_neg hc, if_neg hn]
        rw [parseCSVAux_word u hu, parseCSVAux, if_pos rfl]
        have hh : (⟨[c] ++ u⟩ : String) = h := by
          rw [show [c] ++ u = c :: u from rfl, ← hdat]
        rw [hh, ih hne2 (fun x hx => hcond x (List.mem_cons_of_mem h hx)) _]
        simp

/-- Consuming the unquoted header line at the end of the text emits the
header fields. -/
theorem parseCSVAux_headers_end (hs : List String) (hne : hs ≠ [])
    (hcond : ∀ h ∈ hs, h.data ≠ [] ∧ ∀ c ∈ h.data, c ≠ '"' ∧ c ≠ ',' ∧ c ≠ '\n')
    (row : List CSVField) (rows : List (List CSVField)) :
    parseCSVAux ((joinComma hs).data) CSVMode.start [] row rows =
      rows ++ [row ++ hs.map CSVField.fstr] := by
  induction hs generalizing row with
  | nil => exact absurd rfl hne
  | cons h hs ih =>
    obtain ⟨hd, hch⟩ := hcond h (List.mem_cons_self h hs)
    cases hdat : h.data with
    | nil => exact absurd hdat hd
    | cons c u =>
      have hcu : ∀ x ∈ c :: u, x ≠ '"' ∧ x ≠ ',' ∧ x ≠ '\n' := by
        rw [← hdat]; exact hch
      obtain ⟨hq, hc, hn⟩ := hcu c (List.mem_cons_self c u)
      have hu : ∀ x ∈ u, x ≠ ',' ∧ x ≠ '\n' := fun x hx =>
        ⟨(hcu x (List.mem_cons_of_mem c hx)).2.1, (hcu x (List.mem_cons_of_mem c hx)).2.2⟩
      cases hhs : hs with
      | nil =>
        subst hhs
        show parseCSVAux (h.data) CSVMode.start [] row rows = _
        rw [hdat, show (c :: u : List Char) = c :: (u ++ []) from by simp]
        rw [parseCSVAux, if_neg hq, if_neg hc, if_neg hn]
        rw [parseCSVAux_word u hu, parseCSVAux]
        have : (⟨[c] ++ u⟩ : String) = h := by
          rw [show [c] ++ u = c :: u from rfl, ← hdat]
        rw [this]
        rfl
      | cons h2 hs2 =>
        rw [← hhs]
        have hne2 : hs ≠ [] := by rw [hhs]; exact List.cons_ne_nil h2 hs2
        rw [joinComma_cons h hs hne2, data_append, data_append]
        rw [show ("," : String).data = [','] from rfl]
        rw [List.append_assoc]
        rw [show [','] ++ (joinComma hs).data = ',' :: (joinComma hs).data from rfl]
        rw [hdat, List.cons_append, parseCSVAux, if_neg hq, if_neg hc, if_neg hn]
        rw [parseCSVAux_word u hu, parseCSVAux, if_pos rfl]
        have hh : (⟨[c] ++ u⟩ : String) = h := by
          rw [show [c] ++ u = c :: u from rfl, ← hdat]
        rw [hh, ih hne2 (fun x hx => hcond x (List.mem_cons_of_mem h hx)) _]
        simp

/-- Consuming a non-empty sequence of escaped records at the end of the
text emits all of them. -/
theorem parseCSVAux_rows (rs : List (List DBValue)) (hne : rs ≠ [])
    (hcond : ∀ r ∈ rs, r ≠ [] ∧ r ≠ [DBValue.vnull])
    (rows : List (List CSVField)) :
    parseCSVAux ((joinNewline (rs.map objectToCSVRow)).data) CSVMode.start [] [] rows =
      rows ++ rs.map (fun r => r.map fieldOfDB) := by
  induction rs generalizing rows with
  | nil => exact absurd rfl hne
  | cons r rs ih =>
    obtain ⟨hr1, hr2⟩ := hcond r (List.mem_cons_self r rs)
    cases hrs : rs with
    | nil =>
      subst hrs
      show parseCSVAux ((objectToCSVRow r).data) CSVMode.start [] [] rows = _
      rw [parseCSVAux_row_end r [] rows hr1 (Or.inr hr2)]
      simp
    | cons r2 rs2 =>
      rw [← hrs]
      have hne2 : rs ≠ [] := by rw [hrs]; exact List.cons_ne_nil r2 rs2
      have hmapne : rs.map objectToCSVRow ≠ [] := by simpa using hne2
      rw [List.map_cons, joinNewline_cons _ _ hmapne, data_append, data_append]
      rw [show ("\n" : String).data = ['\n'] from rfl]
      rw [List.append_assoc]
      rw [show ['\n'] ++ (joinNewline (rs.map objectToCSVRow)).data =
            '\n' :: (joinNewline (rs.map objectToCSVRow)).data from rfl]
      rw [parseCSVAux_row_newline r hr1]
      rw [ih hne2 (fun x hx => hcond x (List.mem_cons_of_mem r hx)) _]
      simp

/-! ## Helper lemmas shared by the claim theorems -/

/-- In an invariant store no message row references the id the next
created interview will receive. -/
theorem no_messages_for_fresh_id (s : Store) (inv : StoreInv s) :
    s.messages.filter (fun m => m.interviewId == s.nextInterviewId) = [] := by
  rw [List.filter_eq_nil_iff]
  intro m hm
  obtain ⟨iv0, hiv0, hid⟩ := inv.msgIvEx m hm
  have hlt := inv.ividLt iv0 hiv0
  simp only [← hid, beq_iff_eq]
  omega

/-- `find?` commutes with a map that does not disturb the predicate. -/
theorem find?_map_of_pred_preserved (l : List Interview) (p : Interview → Bool)
    (g : Interview → Interview) (hp : ∀ x, p (g x) = p x) :
    (l.map g).find? p = (l.find? p).map g := by
  induction l with
  | nil => rfl
  | cons x xs ih =>
    by_cases hx : p x = true
    · rw [List.map_cons, List.find?_cons_of_pos _ (by rw [hp x]; exact hx),
        List.find?_cons_of_pos _ hx]
      rfl
    · rw [List.map_cons,
        List.find?_cons_of_neg _ (by rw [hp x]; exact hx),
        List.find?_cons_of_neg _ hx, ih]

theorem mem_insertUploadedDesc (r x : ResumeRow) (l : List ResumeRow) :
    x ∈ insertUploadedDesc r l ↔ x = r ∨ x ∈ l := by
  induction l with
  | nil => simp [insertUploadedDesc]
  | cons y ys ih =>
    unfold insertUploadedDesc
    split
    · simp [List.mem_cons]
    · simp only [List.mem_cons, ih]
      tauto

theorem mem_sortUploadedDesc (x : ResumeRow) (l : List ResumeRow) :
    x ∈ sortUploadedDesc l ↔ x ∈ l := by
  induction l with
  | nil => simp [sortUploadedDesc]
  | cons y ys ih => simp [sortUploadedDesc, mem_insertUploadedDesc, ih]

theorem reachable_sampleCreate : Reachable sampleCreate :=
  Reachable.createInterviewStep emptyStore 7 none "backend" "senior" "rook" 1 2
    Reachable.init (by decide) (by decide)

theorem reachable_sampleEnded : Reachable sampleEnded :=
  Reachable.endInterviewStep sampleCreate 7 1 3 reachable_sampleCreate (by decide)

theorem reachable_sampleSecond : Reachable sampleSecond :=
  Reachable.postMessageStep sampleCreate 7 1 "I have 3 years of Go experience"
    AIOutcome.failure 3 4 reachable_sampleCreate (by decide) (by decide)

/-! ## Claim theorems -/

/-- C1 (counterexample): the end-interview operation does not require the
current status to be `in_progress` and does change the status of a
terminal interview: on a store holding a `cancelled` interview owned by
user 7, PATCH /end answers 200 and the stored status becomes `completed`. -/
theorem endInterview_transitions_cancelled :
    (getInterview cancelledStore 1).map Interview.status = some "cancelled" ∧
    (endInterviewRoute cancelledStore 7 1 9).1 =
      Except.ok (some ⟨1, 7, none, "backend", "senior", 0, some 9, "completed", "rook"⟩) ∧
    (getInterview (endInterviewRoute cancelledStore 7 1 9).2 1).map Interview.status =
      some "completed" ∧
    ("completed" : String) ≠ "cancelled" := by
  refine ⟨rfl, rfl, rfl, by decide⟩

/-- C1 (amended): the end-interview route checks only existence and
ownership; for any owned interview it unconditionally answers 200 with the
row updated to status `completed` and endedAt = now, whatever the current
status was.  In particular a `completed` interview keeps its status value
(with endedAt refreshed), while a `cancelled` one would transition to
`completed`. -/
theorem endInterview_unconditionally_completes (s : Store) (actor id now : Nat)
    (iv : Interview) (hg : getInterview s id = some iv) (hown : iv.userId = actor) :
    (endInterviewRoute s actor id now).1 =
      Except.ok (some { iv with status := "completed", endedAt := some now }) ∧
    (getInterview (endInterviewRoute s actor id now).2 id).map Interview.status =
      some "completed" := by
  have hu : (iv.userId == actor) = true := by simp [hown]
  have hivid : iv.id = id := by
    have := List.find?_some (show s.interviews.find? (fun x => x.id == id) = some iv
      from hg)
    simpa using this
  subst hivid
  have hfind : s.interviews.find? (fun x => x.id == iv.id) = some iv := hg
  have hmap : (s.interviews.map (applyStatusUpdate iv.id "completed" (some now))).find?
      (fun x => x.id == iv.id) =
      some (applyStatusUpdate iv.id "completed" (some now) iv) := by
    rw [find?_map_of_pred_preserved _ _ _
      (fun x => by rw [applyStatusUpdate_id]), hfind]
    rfl
  have happly : applyStatusUpdate iv.id "completed" (some now) iv =
      { iv with status := "completed", endedAt := some now } := by
    simp [applyStatusUpdate]
  unfold endInterviewRoute
  rw [hg]
  simp only [hu, if_true]
  unfold updateInterviewStatus
  constructor
  · show Except.ok (getInterview _ iv.id) = _
    simp only [getInterview, hmap, happly]
  · show (getInterview _ iv.id).map Interview.status = _
    simp only [getInterview, hmap, happly, Option.map]

/-- C1 (witness for the amended theorem): instantiated on the reachable
store holding the completed interview 1 owned by user 7, ending again at
tick 9. -/
theorem endInterview_unconditionally_completes_witness :
    getInterview sampleEnded 1 =
      some ⟨1, 7, none, "backend", "senior", 1, some 3, "completed", "rook"⟩ ∧
    (⟨1, 7, none, "backend", "senior", 1, some 3, "completed", "rook"⟩ :
      Interview).userId = 7 ∧
    ((endInterviewRoute sampleEnded 7 1 9).1 =
      Except.ok (some ⟨1, 7, none, "backend", "senior", 1, some 9, "completed", "rook"⟩) ∧
    (getInterview (endInterviewRoute sampleEnded 7 1 9).2 1).map Interview.status =
      some "completed") :=
  ⟨rfl, rfl, endInterview_unconditionally_completes sampleEnded 7 1 9
    ⟨1, 7, none, "backend", "senior", 1, some 3, "completed", "rook"⟩ rfl rfl⟩

/-- C2: posting a message to an interview whose status is not
`in_progress` is answered with an error before any write: the route
returns an error value and the store — in particular its message table —
is unchanged. -/
theorem postMessage_rejected_on_terminal (s : Store) (actor id : Nat)
    (content : String) (o : AIOutcome) (t1 t2 : Nat) (iv : Interview)
    (hg : getInterview s id = some iv) (hst : iv.status ≠ "in_progress") :
    (∃ e, (postMessageRoute s actor id content o t1 t2).1 = Except.error e) ∧
    (postMessageRoute s actor id content o t1 t2).2 = s := by
  unfold postMessageRoute
  rw [hg]
  by_cases hu : (iv.userId == actor) = true
  · have hb : (iv.status == "in_progress") = false := by
      rw [beq_eq_false_iff_ne]
      exact hst
    simp [hu, hb]
  · simp [hu]

/-- C2 (witness): instantiated on the reachable store holding the
completed interview 1. -/
theorem postMessage_rejected_on_terminal_witness :
    getInterview sampleEnded 1 =
      some ⟨1, 7, none, "backend", "senior", 1, some 3, "completed", "rook"⟩ ∧
    (⟨1, 7, none, "backend", "senior", 1, some 3, "completed", "rook"⟩ :
      Interview).status ≠ "in_progress" ∧
    ((∃ e, (postMessageRoute sampleEnded 7 1 "one more thing"
        AIOutcome.failure 4 5).1 = Except.error e) ∧
      (postMessageRoute sampleEnded 7 1 "one more thing"
        AIOutcome.failure 4 5).2 = sampleEnded) :=
  ⟨rfl, by decide, postMessage_rejected_on_terminal sampleEnded 7 1
    "one more thing" AIOutcome.failure 4 5
    ⟨1, 7, none, "backend", "senior", 1, some 3, "completed", "rook"⟩ rfl (by decide)⟩

/-- C6: in every reachable store, an `in_progress` interview has no end
timestamp, and an interview in any other status has an end timestamp at
least its start timestamp. -/
theorem interview_endedAt_coupling {s : Store} (h : Reachable s) :
    ∀ iv ∈ s.interviews,
      (iv.status = "in_progress" → iv.endedAt = none) ∧
      (iv.status ≠ "in_progress" → ∃ t, iv.endedAt = some t ∧ iv.startedAt ≤ t) :=
  (reachable_inv h).endedInv

/-- C6 (witness): instantiated on the reachable store holding one
completed interview. -/
theorem interview_endedAt_coupling_witness :
    Reachable sampleEnded ∧
    ∀ iv ∈ sampleEnded.interviews,
      (iv.status = "in_progress" → iv.endedAt = none) ∧
      (iv.status ≠ "in_progress" → ∃ t, iv.endedAt = some t ∧ iv.startedAt ≤ t) :=
  ⟨reachable_sampleEnded, interview_endedAt_coupling reachable_sampleEnded⟩

/-- C8: when the assembled filter matches zero interviews, the export
resolves successfully with the literal no-match message instead of a
written file. -/
theorem exportInterviews_empty_returns_message (s : Store) (o : ExportOptions)
    (h : s.interviews.filter (exportFilter o) = []) :
    exportInterviewsToCSV s o =
      Except.ok (ExportOutcome.message "No interviews found matching the criteria") := by
  unfold exportInterviewsToCSV
  rw [h]
  rfl

/-- C8 (witness): a fresh store with an owner and date-range filter. -/
theorem exportInterviews_empty_returns_message_witness :
    emptyStore.interviews.filter (exportFilter ⟨some 7, some 0, some 10⟩) = [] ∧
    exportInterviewsToCSV emptyStore ⟨some 7, some 0, some 10⟩ =
      Except.ok (ExportOutcome.message "No interviews found matching the criteria") :=
  ⟨rfl, exportInterviews_empty_returns_message emptyStore ⟨some 7, some 0, some 10⟩ rfl⟩

/-- C10: the routes only ever assign the statuses `in_progress` (at
creation) and `completed` (at end), so in every reachable store every
interview is `in_progress` or `completed` and the `cancelled` status of
the documented domain is never reached. -/
theorem interview_status_never_cancelled {s : Store} (h : Reachable s) :
    ∀ iv ∈ s.interviews,
      (iv.status = "in_progress" ∨ iv.status = "completed") ∧
      iv.status ≠ "cancelled" := by
  intro iv hiv
  have hd := (reachable_inv h).statusDom iv hiv
  refine ⟨hd, ?_⟩
  rcases hd with h1 | h1 <;> rw [h1] <;> decide

/-- C10 (witness): instantiated on a reachable store with one interview
created and ended. -/
theorem interview_status_never_cancelled_witness :
    Reachable sampleEnded ∧
    ∀ iv ∈ sampleEnded.interviews,
      (iv.status = "in_progress" ∨ iv.status = "completed") ∧
      iv.status ≠ "cancelled" :=
  ⟨reachable_sampleEnded, interview_status_never_cancelled reachable_sampleEnded⟩

/-- C3: a successful interview creation synchronously seeds exactly one
message, from sender `ai`, whose content is the fixed template applied to
the persona and target role (the template provably embeds both, with no
external call involved); and in every reachable store the first message of
every interview history — an order that is non-decreasing in the sent
timestamp — has sender `ai`. -/
theorem createInterview_seeds_single_ai_greeting :
    (∀ (s : Store) (actor : Nat) (resumeId : Option Nat)
      (targetRole experienceLevel interviewerCharacter : String)
      (t1 t2 : Nat) (iv : Interview), Reachable s →
      (createInterviewRoute s actor resumeId targetRole experienceLevel
        interviewerCharacter t1 t2).1 = Except.ok iv →
      getInterviewMessages (createInterviewRoute s actor resumeId targetRole
        experienceLevel interviewerCharacter t1 t2).2 iv.id =
        [⟨s.nextMessageId, iv.id, "ai",
          openingMessage interviewerCharacter targetRole, t2⟩]) ∧
    (∀ c r : String, ∃ p q w : String,
      openingMessage c r = p ++ c ++ q ++ r ++ w) ∧
    (∀ s : Store, Reachable s → ∀ iv ∈ s.interviews,
      ∃ m rest, getInterviewMessages s iv.id = m :: rest ∧
        m.sender = "ai" ∧
        m.content = openingMessage iv.interviewerCharacter iv.targetRole ∧
        ∀ m2 ∈ rest, m.sentAt ≤ m2.sentAt) := by
  refine ⟨?_, ?_, ?_⟩
  · intro s actor resumeId targetRole experienceLevel interviewerCharacter
      t1 t2 iv hs hok
    have inv := reachable_inv hs
    by_cases h : resumeOwnershipOk s actor resumeId = true
    · have hiv : (⟨s.nextInterviewId, actor, resumeId, targetRole,
          experienceLevel, t1, none, "in_progress", interviewerCharacter⟩ :
          Interview) = iv := by
        have := hok
        simp only [createInterviewRoute, h, if_true, createInterview,
          createInterviewMessage, Except.ok.injEq] at this
        exact this
      subst hiv
      simp only [createInterviewRoute, h, if_true, createInterview,
        createInterviewMessage]
      have hold := no_messages_for_fresh_id s inv
      simp [getInterviewMessages, List.filter_append, hold]
    · exfalso
      simp only [createInterviewRoute, h, if_false, Bool.false_eq_true] at hok
      exact Except.noConfusion hok
  · intro c r
    exact ⟨"Hello! I\x27m your ",
      " interviewer. Welcome to ChessView. Let\x27s start with a brief introduction. Could you tell me a bit about yourself and your background in ",
      "?", rfl⟩
  · intro s hs iv hiv
    have inv := reachable_inv hs
    obtain ⟨m, rest, hh, hsnd, hc, _⟩ := inv.histOk iv hiv
    refine ⟨m, rest, hh, hsnd, hc, ?_⟩
    have hp : (getInterviewMessages s iv.id).Pairwise
        (fun a b => a.sentAt ≤ b.sentAt) :=
      inv.msgsSorted.filter _
    rw [hh] at hp
    exact (List.pairwise_cons.mp hp).1

/-- C3 (witness): creation on the fresh store, with the template
decomposition at persona "rook" and role "backend", and the first-message
fact on the resulting reachable store. -/
theorem createInterview_seeds_single_ai_greeting_witness :
    (Reachable emptyStore ∧
      (createInterviewRoute emptyStore 7 none "backend" "senior" "rook" 1 2).1 =
        Except.ok ⟨1, 7, none, "backend", "senior", 1, none, "in_progress", "rook"⟩ ∧
      getInterviewMessages sampleCreate 1 =
        [⟨1, 1, "ai", openingMessage "rook" "backend", 2⟩]) ∧
    (∃ p q w : String, openingMessage "rook" "backend" =
      p ++ "rook" ++ q ++ "backend" ++ w) ∧
    (∀ iv ∈ sampleCreate.interviews,
      ∃ m rest, getInterviewMessages sampleCreate iv.id = m :: rest ∧
        m.sender = "ai" ∧
        m.content = openingMessage iv.interviewerCharacter iv.targetRole ∧
        ∀ m2 ∈ rest, m.sentAt ≤ m2.sentAt) :=
  ⟨⟨Reachable.init, rfl,
      createInterview_seeds_single_ai_greeting.1 emptyStore 7 none "backend"
        "senior" "rook" 1 2
        ⟨1, 7, none, "backend", "senior", 1, none, "in_progress", "rook"⟩
        Reachable.init rfl⟩,
    createInterview_seeds_single_ai_greeting.2.1 "rook" "backend",
    createInterview_seeds_single_ai_greeting.2.2 sampleCreate
      reachable_sampleCreate⟩

/-- C4 (counterexample): a completion that succeeds with empty content is
persisted as the fixed processing placeholder, which is a different string
from the fixed apology fallback used for failures — so the three fault
kinds do not all yield the same message. -/
theorem postMessage_empty_content_distinct_fallback :
    (postMessageRoute sampleCreate 7 1 "And you?"
        (AIOutcome.response (some "")) 3 4).1 =
      Except.ok (⟨2, 1, "user", "And you?", 3⟩,
                 ⟨3, 1, "ai", processingMessage, 4⟩) ∧
    processingMessage ≠ fallbackApology := by
  exact ⟨rfl, by decide⟩

/-- C4 (amended): whatever the outcome of the external completion call —
rejection (network error or malformed response), null/empty content, or a
normal reply — the relay route never propagates a fault: it persists and
returns the user message followed by an `ai` message.  The rejection case
persists the fixed apology fallback; the null/empty-content case persists
the distinct fixed processing placeholder. -/
theorem postMessage_never_propagates_ai_fault (s : Store) (actor id : Nat)
    (content : String) (o : AIOutcome) (t1 t2 : Nat) (iv : Interview)
    (hg : getInterview s id = some iv) (hown : iv.userId = actor)
    (hst : iv.status = "in_progress") :
    (postMessageRoute s actor id content o t1 t2).1 =
      Except.ok (⟨s.nextMessageId, iv.id, "user", content, t1⟩,
                 ⟨s.nextMessageId + 1, iv.id, "ai", getAIResponse o, t2⟩) ∧
    (postMessageRoute s actor id content o t1 t2).2.messages =
      s.messages ++ [⟨s.nextMessageId, iv.id, "user", content, t1⟩,
                     ⟨s.nextMessageId + 1, iv.id, "ai", getAIResponse o, t2⟩] ∧
    (o = AIOutcome.failure → getAIResponse o = fallbackApology) ∧
    (∀ c, o = AIOutcome.response c → (c = none ∨ c = some "") →
      getAIResponse o = processingMessage) := by
  have hu : (iv.userId == actor) = true := by simp [hown]
  have hb : (iv.status == "in_progress") = true := by simp [hst]
  refine ⟨?_, ?_, ?_, ?_⟩
  · simp [postMessageRoute, hg, hu, hb, createInterviewMessage]
  · simp [postMessageRoute, hg, hu, hb, createInterviewMessage]
  · intro h
    subst h
    rfl
  · intro c h hc
    subst h
    rcases hc with rfl | rfl
    · rfl
    · rfl

/-- C4 (witness): instantiated on the fresh-interview store with a failing
external call. -/
theorem postMessage_never_propagates_ai_fault_witness :
    getInterview sampleCreate 1 =
      some ⟨1, 7, none, "backend", "senior", 1, none, "in_progress", "rook"⟩ ∧
    ((postMessageRoute sampleCreate 7 1 "I have 3 years of Go experience"
        AIOutcome.failure 3 4).1 =
      Except.ok (⟨2, 1, "user", "I have 3 years of Go experience", 3⟩,
                 ⟨3, 1, "ai", getAIResponse AIOutcome.failure, 4⟩) ∧
    (postMessageRoute sampleCreate 7 1 "I have 3 years of Go experience"
        AIOutcome.failure 3 4).2.messages =
      sampleCreate.messages ++
        [⟨2, 1, "user", "I have 3 years of Go experience", 3⟩,
         ⟨3, 1, "ai", getAIResponse AIOutcome.failure, 4⟩] ∧
    (AIOutcome.failure = AIOutcome.failure →
      getAIResponse AIOutcome.failure = fallbackApology) ∧
    (∀ c, AIOutcome.failure = AIOutcome.response c → (c = none ∨ c = some "") →
      getAIResponse AIOutcome.failure = processingMessage)) :=
  ⟨rfl, postMessage_never_propagates_ai_fault sampleCreate 7 1
    "I have 3 years of Go experience" AIOutcome.failure 3 4
    ⟨1, 7, none, "backend", "senior", 1, none, "in_progress", "rook"⟩
    rfl rfl rfl⟩

/-- C5: the relay persists the candidate message before the external call
is issued — the store at the call point holds exactly the old messages
plus the user turn, and the completed call appends the reply after it —
and in every reachable store (crash states included) every `ai` message
that is not an interview history head is preceded in that history by a
`user` turn. -/
theorem userMessage_persisted_before_external_call :
    (∀ (s : Store) (actor id : Nat) (content : String) (o : AIOutcome)
      (t1 t2 : Nat) (iv : Interview),
      getInterview s id = some iv → iv.userId = actor →
      iv.status = "in_progress" →
      (postMessageUserOnly s actor id content t1).2.messages =
        s.messages ++ [⟨s.nextMessageId, iv.id, "user", content, t1⟩] ∧
      (postMessageRoute s actor id content o t1 t2).2.messages =
        s.messages ++ [⟨s.nextMessageId, iv.id, "user", content, t1⟩,
          ⟨s.nextMessageId + 1, iv.id, "ai", getAIResponse o, t2⟩]) ∧
    (∀ s : Store, Reachable s → ∀ (ivid i : Nat) (m : InterviewMessage),
      (getInterviewMessages s ivid)[i]? = some m → m.sender = "ai" → i ≠ 0 →
      ∃ (j : Nat) (u : InterviewMessage), j < i ∧
        (getInterviewMessages s ivid)[j]? = some u ∧ u.sender = "user") := by
  constructor
  · intro s actor id content o t1 t2 iv hg hown hst
    have hu : (iv.userId == actor) = true := by simp [hown]
    have hb : (iv.status == "in_progress") = true := by simp [hst]
    constructor
    · simp [postMessageUserOnly, hg, hu, hb, createInterviewMessage]
    · simp [postMessageRoute, hg, hu, hb, createInterviewMessage]
  · intro s hs ivid i m hm hai hi
    have inv := reachable_inv hs
    have hmem : m ∈ getInterviewMessages s ivid := List.getElem?_mem hm
    have hmem2 : m ∈ s.messages ∧ (m.interviewId == ivid) = true := by
      simpa [getInterviewMessages, List.mem_filter] using hmem
    obtain ⟨iv, hivmem, hivid⟩ := inv.msgIvEx m hmem2.1
    have hivid2 : iv.id = ivid := by
      have h2 : m.interviewId = ivid := by simpa using hmem2.2
      rw [hivid, h2]
    obtain ⟨m0, rest, hh, _, _, ht⟩ := inv.histOk iv hivmem
    rw [hivid2] at hh
    rw [hh] at hm ⊢
    cases i with
    | zero => exact absurd rfl hi
    | succ n =>
      simp only [List.getElem?_cons_succ] at hm
      obtain ⟨j, u, hj, hju, hu⟩ := ht.ai_preceded n m hm hai
      exact ⟨j + 1, u, by omega, by simpa using hju, hu⟩

/-- C5 (witness): the crash-point store after one relay call on the fresh
interview holds exactly the seed plus the user turn; and in the completed
reachable store the reply at index 2 of the history has a user turn before
it. -/
theorem userMessage_persisted_before_external_call_witness :
    (getInterview sampleCreate 1 =
      some ⟨1, 7, none, "backend", "senior", 1, none, "in_progress", "rook"⟩ ∧
    ((postMessageUserOnly sampleCreate 7 1 "I have 3 years of Go experience" 3).2.messages =
        sampleCreate.messages ++
          [⟨2, 1, "user", "I have 3 years of Go experience", 3⟩] ∧
      (postMessageRoute sampleCreate 7 1 "I have 3 years of Go experience"
          AIOutcome.failure 3 4).2.messages =
        sampleCreate.messages ++
          [⟨2, 1, "user", "I have 3 years of Go experience", 3⟩,
           ⟨3, 1, "ai", getAIResponse AIOutcome.failure, 4⟩])) ∧
    (Reachable sampleSecond ∧
      (getInterviewMessages sampleSecond 1)[2]? =
        some ⟨3, 1, "ai", fallbackApology, 4⟩ ∧
      ∃ (j : Nat) (u : InterviewMessage), j < 2 ∧
        (getInterviewMessages sampleSecond 1)[j]? = some u ∧
        u.sender = "user") :=
  ⟨⟨rfl, userMessage_persisted_before_external_call.1 sampleCreate 7 1
      "I have 3 years of Go experience" AIOutcome.failure 3 4
      ⟨1, 7, none, "backend", "senior", 1, none, "in_progress", "rook"⟩
      rfl rfl rfl⟩,
    ⟨reachable_sampleSecond,
      rfl,
      userMessage_persisted_before_external_call.2 sampleSecond
        reachable_sampleSecond 1 2 ⟨3, 1, "ai", fallbackApology, 4⟩
        rfl rfl (by decide)⟩⟩

/-- C7: exporting any set of interview records to delimited text under the
escaping rule of objectToCSVRow (NULL to the empty field, integers and
stored timestamps to their text, every other scalar quoted with embedded
quotes doubled) and re-parsing the text recovers the header fields and the
scalar field values of every record. -/
theorem exportInterviews_roundtrip (rows : List Interview) :
    parseCSV (exportContent interviewColumns (rows.map interviewDBRow)) =
      interviewColumns.map CSVField.fstr ::
        rows.map (fun iv => (interviewDBRow iv).map fieldOfDB) := by
  unfold parseCSV exportContent
  cases rows with
  | nil =>
    show parseCSVAux ((joinNewline [joinComma interviewColumns]).data)
        CSVMode.start [] [] [] = _
    rw [show joinNewline [joinComma interviewColumns] =
          joinComma interviewColumns from rfl]
    rw [parseCSVAux_headers_end interviewColumns (by decide) (by decide) [] []]
    simp
  | cons r rs =>
    have hmapne : ((r :: rs).map interviewDBRow).map objectToCSVRow ≠ [] := by
      simp
    rw [joinNewline_cons _ _ hmapne, data_append, data_append,
      show ("\n" : String).data = ['\n'] from rfl, List.append_assoc,
      List.singleton_append]
    rw [parseCSVAux_headers_newline interviewColumns (by decide) (by decide)]
    rw [parseCSVAux_rows ((r :: rs).map interviewDBRow) (by simp) ?cond _]
    · simp
    case cond =>
      intro x hx
      simp only [List.mem_map] at hx
      obtain ⟨iv, _, rfl⟩ := hx
      constructor <;> simp [interviewDBRow]

/-- C9 (counterexample): reading resume 1, whose stored parsedContent is
the corrupt text "not json", does not fail — but the field is surfaced as
the raw stored string, not as an empty/absent parse. -/
theorem getResume_corrupt_raw_not_absent :
    (getResume corruptStore 1).map Resume.parsedContent =
      some (ParsedContent.raw "not json") ∧
    ParsedContent.raw "not json" ≠ ParsedContent.absent := by
  refine ⟨rfl, fun h => ParsedContent.noConfusion h⟩

/-- C9 (amended): a corrupt stored parsedContent never makes a resume read
throw — the swallowing row mapping surfaces the raw stored string (while
the same read without the catch block would propagate the parse error),
and getResumesByUser returns the same totally-rehydrated row. -/
theorem getResume_never_throws_surfaces_raw (s : Store) (id : Nat)
    (r : ResumeRow) (raw e : String)
    (hf : s.resumes.find? (fun x => x.id == id) = some r)
    (hraw : r.parsedContent = some raw)
    (herr : jsonParse raw = Except.error e) :
    (getResume s id).map Resume.parsedContent = some (ParsedContent.raw raw) ∧
    getResumeStrict s id = Except.error e ∧
    rehydrateResume r ∈ getResumesByUser s r.userId ∧
    (rehydrateResume r).parsedContent = ParsedContent.raw raw := by
  have hre : (rehydrateResume r).parsedContent = ParsedContent.raw raw := by
    simp [rehydrateResume, hraw, herr]
  refine ⟨?_, ?_, ?_, hre⟩
  · simp [getResume, hf, hre]
  · simp [getResumeStrict, hf, rehydrateResumeStrict, hraw, herr, Except.map]
  · have hmem : r ∈ s.resumes := List.mem_of_find?_eq_some hf
    have hfil : r ∈ s.resumes.filter (fun x => x.userId == r.userId) := by
      simp [List.mem_filter, hmem]
    exact List.mem_map_of_mem _ ((mem_sortUploadedDesc r _).mpr hfil)

/-- C9 (witness): instantiated on the store holding the corrupt row. -/
theorem getResume_never_throws_surfaces_raw_witness :
    corruptStore.resumes.find? (fun x => x.id == 1) =
      some ⟨1, 7, "resume.pdf", "/uploads/resume.pdf", 0, some "not json"⟩ ∧
    jsonParse "not json" = Except.error "Unexpected token" ∧
    ((getResume corruptStore 1).map Resume.parsedContent =
        some (ParsedContent.raw "not json") ∧
      getResumeStrict corruptStore 1 = Except.error "Unexpected token" ∧
      rehydrateResume ⟨1, 7, "resume.pdf", "/uploads/resume.pdf", 0,
          some "not json"⟩ ∈ getResumesByUser corruptStore 7 ∧
      (rehydrateResume ⟨1, 7, "resume.pdf", "/uploads/resume.pdf", 0,
          some "not json"⟩).parsedContent = ParsedContent.raw "not json") :=
  ⟨rfl, rfl, getResume_never_throws_surfaces_raw corruptStore 1
    ⟨1, 7, "resume.pdf", "/uploads/resume.pdf", 0, some "not json"⟩
    "not json" "Unexpected token" rfl rfl rfl⟩

end ChessHireHub
